import Mathlib

/-!
Shallow embedding of the Tetris game engine (`tetris.py`) and verification of
its specification.

The Python dictionary `locked_positions : Dict[(int, int), color]` is embedded
as an association list with pairwise-distinct keys (a Python dict can never
hold two equal keys); dict assignment, deletion and `pop` are embedded by
`dictInsert`, `dictErase` and `dictLookup` below.  The dense grid produced by
`create_grid` is embedded as a function `Int → Int → Color` (row first, so
`grid y x` is the Python `grid[y][x]`).  `Piece.rot` embeds the Python field
`piece.rotation`; `piece.shape` and `piece.color` are the derived lookups into
`SHAPES` / `SHAPE_COLORS` performed in `Piece.__init__`.  Fallible operations
(`dict.pop` on a missing key would raise `KeyError`) return `Option`.
-/

namespace Tetris

/-- RGB color triple, as in the Python source. -/
abbrev Color := Nat × Nat × Nat

def BLACK : Color := (0, 0, 0)

def COLOR_I : Color := (0, 240, 240)
def COLOR_O : Color := (240, 240, 0)
def COLOR_T : Color := (160, 0, 240)
def COLOR_S : Color := (0, 240, 0)
def COLOR_Z : Color := (240, 0, 0)
def COLOR_J : Color := (0, 0, 240)
def COLOR_L : Color := (240, 160, 0)

/-- The I tetromino: 4 rotation states, each 4 `(dx, dy)` offsets from the pivot. -/
def I : List (List (Int × Int)) :=
  [[(0, 0), (-1, 0), (1, 0), (2, 0)],
   [(0, 0), (0, -1), (0, 1), (0, 2)],
   [(0, 0), (-1, 0), (1, 0), (2, 0)],
   [(0, 0), (0, -1), (0, 1), (0, 2)]]

/-- The O tetromino (square); its rotation states are identical. -/
def O : List (List (Int × Int)) :=
  [[(0, 0), (1, 0), (0, 1), (1, 1)],
   [(0, 0), (1, 0), (0, 1), (1, 1)],
   [(0, 0), (1, 0), (0, 1), (1, 1)],
   [(0, 0), (1, 0), (0, 1), (1, 1)]]

/-- The T tetromino. -/
def T : List (List (Int × Int)) :=
  [[(0, 0), (-1, 0), (1, 0), (0, -1)],
   [(0, 0), (0, -1), (0, 1), (1, 0)],
   [(0, 0), (-1, 0), (1, 0), (0, 1)],
   [(0, 0), (0, -1), (0, 1), (-1, 0)]]

/-- The S tetromino. -/
def S : List (List (Int × Int)) :=
  [[(0, 0), (-1, 0), (0, -1), (1, -1)],
   [(0, 0), (0, -1), (1, 0), (1, 1)],
   [(0, 0), (-1, 0), (0, -1), (1, -1)],
   [(0, 0), (0, -1), (1, 0), (1, 1)]]

/-- The Z tetromino. -/
def Z : List (List (Int × Int)) :=
  [[(0, 0), (1, 0), (0, -1), (-1, -1)],
   [(0, 0), (0, -1), (-1, 0), (-1, 1)],
   [(0, 0), (1, 0), (0, -1), (-1, -1)],
   [(0, 0), (0, -1), (-1, 0), (-1, 1)]]

/-- The J tetromino. -/
def J : List (List (Int × Int)) :=
  [[(0, 0), (-1, 0), (1, 0), (-1, -1)],
   [(0, 0), (0, -1), (0, 1), (1, -1)],
   [(0, 0), (-1, 0), (1, 0), (1, 1)],
   [(0, 0), (0, -1), (0, 1), (-1, 1)]]

/-- The L tetromino. -/
def L : List (List (Int × Int)) :=
  [[(0, 0), (-1, 0), (1, 0), (1, -1)],
   [(0, 0), (0, -1), (0, 1), (1, 1)],
   [(0, 0), (-1, 0), (1, 0), (-1, 1)],
   [(0, 0), (0, -1), (0, 1), (-1, -1)]]

def SHAPES : List (List (List (Int × Int))) := [I, O, T, S, Z, J, L]

def SHAPE_COLORS : List Color :=
  [COLOR_I, COLOR_O, COLOR_T, COLOR_S, COLOR_Z, COLOR_J, COLOR_L]

/-- A positioned tetromino.  `rot` embeds the Python field `piece.rotation`
(kept in `0..3` by the engine).  `shape_index` is a valid index into `SHAPES`;
the Python constructor `SHAPES[shape_index]` would raise for anything else. -/
structure Piece where
  x : Int
  y : Int
  shape_index : Fin 7
  rot : Nat

/-- Derived field `self.shape = SHAPES[shape_index]` of the Python constructor. -/
def Piece.shape (p : Piece) : List (List (Int × Int)) := SHAPES.getD p.shape_index []

/-- Derived field `self.color = SHAPE_COLORS[shape_index]` of the Python constructor. -/
def Piece.color (p : Piece) : Color := SHAPE_COLORS.getD p.shape_index BLACK

/-- `Piece.get_cells`: absolute grid positions of the 4 blocks of the piece. -/
def get_cells (p : Piece) : List (Int × Int) :=
  (p.shape.getD (p.rot % 4) []).map (fun d => (p.x + d.1, p.y + d.2))

/-- The locked-cell store: association list embedding of the Python dict
`locked_positions`; its keys are pairwise distinct. -/
abbrev Locked := List ((Int × Int) × Color)

/-- The dense grid view, `grid y x` being the Python `grid[y][x]`. -/
abbrev Grid := Int → Int → Color

/-- Lookup in the dict embedding: the value stored at key `k`, if any. -/
def dictLookup : Locked → (Int × Int) → Option Color
  | [], _ => none
  | e :: es, k => if e.1 = k then some e.2 else dictLookup es k

/-- Deletion (`del m[k]`, silently ignoring a missing key, as the `try/except
KeyError: pass` in `clear_rows` does). -/
def dictErase (m : Locked) (k : Int × Int) : Locked :=
  m.filter (fun e => e.1 ≠ k)

/-- Dict assignment `m[k] = v`: update the entry at `k` in place if present
(a Python dict keeps the key's insertion position), else append at the end. -/
def dictInsert : Locked → (Int × Int) → Color → Locked
  | [], k, v => [(k, v)]
  | e :: es, k, v => if e.1 = k then (k, v) :: es else e :: dictInsert es k v

/-- `create_grid`: the dense 10×20 grid derived from the locked cells; a cell
holds the locked color when its coordinate is a key lying inside the grid,
and `BLACK` (empty) otherwise. -/
def create_grid (locked : Locked) : Grid := fun y x =>
  if 0 ≤ x ∧ x < 10 ∧ 0 ≤ y ∧ y < 20 then (dictLookup locked (x, y)).getD BLACK
  else BLACK

/-- The `accepted` list built at the top of `valid_space`: all in-grid
coordinates `(x, y)` whose dense-grid cell is empty. -/
def accepted (grid : Grid) : List (Int × Int) :=
  (List.range 20).flatMap (fun y =>
    ((List.range 10).filter (fun x => grid (Int.ofNat y) (Int.ofNat x) == BLACK)).map
      (fun x => (Int.ofNat x, Int.ofNat y)))

/-- The per-cell test of `valid_space`: a cell fails when out of
horizontal/bottom bounds, or when at non-negative `y` it is not an accepted
(empty, in-grid) coordinate. -/
def cellOK (grid : Grid) (c : Int × Int) : Bool :=
  if c.1 < 0 ∨ 10 ≤ c.1 ∨ 20 ≤ c.2 then false
  else if 0 ≤ c.2 ∧ c ∉ accepted grid then false
  else true

/-- `valid_space(piece, grid)`: every cell of the piece passes `cellOK`. -/
def valid_space (p : Piece) (grid : Grid) : Bool :=
  (get_cells p).all (cellOK grid)

/-- `lock_piece`: write every cell of the piece into the locked store. -/
def lock_piece (p : Piece) (locked : Locked) : Locked :=
  (get_cells p).foldl (fun acc pos => dictInsert acc pos p.color) locked

/-- `rows_to_clear` computed at the top of `clear_rows`: the indices `y` of the
rows of the dense grid containing no `BLACK` cell. -/
def rowsToClear (grid : Grid) : List Int :=
  ((List.range 20).filter (fun y =>
    (List.range 10).all (fun x => !(grid (Int.ofNat y) (Int.ofNat x) == BLACK)))).map Int.ofNat

/-- The `shift` computed for a key of height `y` in `clear_rows`:
`sum(1 for row in rows_to_clear if y < row)`. -/
def shiftOf (rows : List Int) (y : Int) : Int :=
  ((rows.filter (fun row => y < row)).length : Int)

/-- Where a key is re-inserted by `clear_rows`: `(x, y + shift)`. -/
def moveKey (rows : List Int) (k : Int × Int) : Int × Int :=
  (k.1, k.2 + shiftOf rows k.2)

/-- The deletion loop of `clear_rows`: `del locked[(x, y)]` for every cleared
row `y` and every `x` in `range(10)`. -/
def eraseRows (rows : List Int) (locked : Locked) : Locked :=
  rows.foldl (fun acc y =>
    (List.range 10).foldl (fun acc2 x => dictErase acc2 (Int.ofNat x, y)) acc) locked

/-- `sorted(list(locked.keys()), key=lambda p: p[1], reverse=True)`: the keys,
stably sorted by descending `y`. -/
def sortedKeys (m : Locked) : List (Int × Int) :=
  (m.map (fun e => e.1)).mergeSort (fun a b => decide (b.2 ≤ a.2))

/-- The shifting loop of `clear_rows`: for each key in descending-`y` order,
when its shift is positive, `pop` it and re-insert it at `(x, y + shift)`.
`none` embeds the `KeyError` that `pop` would raise on a missing key. -/
def shiftFold (rows : List Int) : List (Int × Int) → Locked → Option Locked
  | [], acc => some acc
  | k :: rest, acc =>
    if 0 < shiftOf rows k.2 then
      match dictLookup acc k with
      | some color => shiftFold rows rest (dictInsert (dictErase acc k) (moveKey rows k) color)
      | none => none
    else shiftFold rows rest acc

/-- `clear_rows(grid, locked)`: detect the completed rows of the dense grid,
return `0` untouched when there are none, otherwise delete their cells, shift
the remaining keys down, and return `len(rows_to_clear)` with the new store.
(The Python local `rows_cleared`, the maximum shift, is dead code: the function
returns `len(rows_to_clear)`.) -/
def clear_rows (grid : Grid) (locked : Locked) : Option (Nat × Locked) :=
  let rows := rowsToClear grid
  if rows.isEmpty then some (0, locked)
  else
    match shiftFold rows (sortedKeys (eraseRows rows locked)) (eraseRows rows locked) with
    | some locked2 => some (rows.length, locked2)
    | none => none

/-- `check_lost`: some locked cell sits in the top visible row or above (`y < 1`). -/
def check_lost (locked : Locked) : Bool :=
  locked.any (fun e => e.1.2 < 1)

/-- The scoring applied in `main` after `cleared = clear_rows(...)`:
`+100 / +300 / +500` for exactly `1 / 2 / 3` rows, `+800` for `4` or more,
unchanged otherwise. -/
def score_after (score : Nat) (cleared : Nat) : Nat :=
  if cleared = 1 then score + 100
  else if cleared = 2 then score + 300
  else if cleared = 3 then score + 500
  else if 4 ≤ cleared then score + 800
  else score

/-- Horizontal translation `piece.x += dx`. -/
def shiftX (p : Piece) (dx : Int) : Piece := ⟨p.x + dx, p.y, p.shape_index, p.rot⟩

/-- Vertical translation `piece.y += dy`. -/
def shiftY (p : Piece) (dy : Int) : Piece := ⟨p.x, p.y + dy, p.shape_index, p.rot⟩

/-- The in-place turn at the top of `try_rotate_with_kicks`:
`piece.rotation = (piece.rotation + 1) % 4`. -/
def rotStep (p : Piece) : Piece := ⟨p.x, p.y, p.shape_index, (p.rot + 1) % 4⟩

/-- The kick loop of `try_rotate_with_kicks`: try each horizontal offset in
order against the already-turned piece, committing to the first valid one
(each failed try restores `piece.x`). -/
def tryKicks (grid : Grid) (p1 : Piece) : List Int → Option Piece
  | [] => none
  | dx :: rest =>
    if valid_space (shiftX p1 dx) grid then some (shiftX p1 dx)
    else tryKicks grid p1 rest

/-- `try_rotate_with_kicks`: turn the piece; keep it if valid, otherwise try
the kicks `[1, -1, 2, -2]`; if all fail, revert (the failed kick loop has
already restored `piece.x`, and `piece.rotation = prev_rot` restores the
turn, leaving exactly the original piece). -/
def try_rotate_with_kicks (p : Piece) (grid : Grid) : Bool × Piece :=
  if valid_space (rotStep p) grid then (true, rotStep p)
  else
    match tryKicks grid (rotStep p) [1, -1, 2, -2] with
    | some p2 => (true, p2)
    | none => (false, p)

/-- The hard drop performed in `main` on the space key:
`while valid_space(...): piece.y += 1` followed by `piece.y -= 1`. -/
def hard_drop (p : Piece) (grid : Grid) : Piece :=
  if h : valid_space p grid = true then hard_drop (shiftY p 1) grid
  else shiftY p (-1)
termination_by (20 - p.y).toNat
decreasing_by
  have hmem : (p.x, p.y) ∈ get_cells p := by
    have h00 : ∀ i : Fin 7, ∀ r : Fin 4,
        ((0, 0) : Int × Int) ∈ (SHAPES.getD i.val []).getD r.val [] := by decide
    have hr4 : p.rot % 4 < 4 := Nat.mod_lt _ (by omega)
    have hm := h00 p.shape_index ⟨p.rot % 4, hr4⟩
    simp only [get_cells, Piece.shape]
    exact List.mem_map.mpr ⟨(0, 0), hm, by simp⟩
  have hall : cellOK grid (p.x, p.y) = true := by
    have h' : (get_cells p).all (cellOK grid) = true := h
    exact List.all_eq_true.mp h' _ hmem
  have hy : p.y < 20 := by
    by_contra hge
    have hcond : ((p.x, p.y) : Int × Int).1 < 0 ∨ 10 ≤ ((p.x, p.y) : Int × Int).1 ∨
        20 ≤ ((p.x, p.y) : Int × Int).2 := Or.inr (Or.inr (by omega))
    rw [cellOK, if_pos hcond] at hall
    exact absurd hall (by simp)
  simp only [shiftY]
  omega

/-! ### Concrete instances used to instantiate the theorems -/

/-- The all-empty dense grid. -/
def emptyGrid : Grid := fun _ _ => BLACK

/-- A sample locked-cell color. -/
def sampleColor : Color := (1, 2, 3)

/-- A vertical I piece just spawned at the top: its cells are
`(5, 0), (5, -1), (5, 1), (5, 2)`. -/
def pieceIV : Piece := ⟨5, 0, ⟨0, by omega⟩, 1⟩

/-- A horizontal I piece near the top of an empty board. -/
def pieceIH : Piece := ⟨4, 0, ⟨0, by omega⟩, 0⟩

/-- An O piece in the middle of the board. -/
def pieceO44 : Piece := ⟨4, 4, ⟨1, by omega⟩, 0⟩

/-- A board whose row 5 is completely filled, with further locked cells at
`(2, 3)` and `(4, 7)`. -/
def board5 : Locked :=
  ((List.range 10).map (fun x => (((x : Int), (5 : Int)), sampleColor))) ++
    [(((2 : Int), (3 : Int)), sampleColor), (((4 : Int), (7 : Int)), sampleColor)]

/-- A board whose row 0 (the top row) is completely filled, with one more
locked cell at `(0, 5)`. -/
def board0 : Locked :=
  ((List.range 10).map (fun x => (((x : Int), (0 : Int)), sampleColor))) ++
    [(((0 : Int), (5 : Int)), sampleColor)]

/-- A board whose row 19 (the bottom row) is completely filled, with one more
locked cell at `(3, 2)`. -/
def board19 : Locked :=
  ((List.range 10).map (fun x => (((x : Int), (19 : Int)), sampleColor))) ++
    [(((3 : Int), (2 : Int)), sampleColor)]

/-! ### Dictionary lemmas -/

theorem mem_dictErase {m : Locked} {k : Int × Int} {e : (Int × Int) × Color} :
    e ∈ dictErase m k ↔ e ∈ m ∧ e.1 ≠ k := by
  simp [dictErase, List.mem_filter]

theorem dictErase_sublist (m : Locked) (k : Int × Int) : (dictErase m k).Sublist m :=
  List.filter_sublist m

theorem dictLookup_mem {m : Locked} {k : Int × Int} {v : Color}
    (h : dictLookup m k = some v) : (k, v) ∈ m := by
  induction m with
  | nil => simp [dictLookup] at h
  | cons e es ih =>
    rw [dictLookup] at h
    by_cases hek : e.1 = k
    · rw [if_pos hek] at h
      rcases e with ⟨ek, ev⟩
      simp only [Option.some.injEq] at h
      simp only at hek
      subst hek
      subst h
      exact List.mem_cons_self _ _
    · rw [if_neg hek] at h
      exact List.mem_cons_of_mem _ (ih h)

theorem dictLookup_isSome {m : Locked} {k : Int × Int}
    (h : k ∈ m.map (fun e => e.1)) : ∃ v, dictLookup m k = some v := by
  induction m with
  | nil => simp at h
  | cons e es ih =>
    rw [dictLookup]
    by_cases hek : e.1 = k
    · exact ⟨e.2, if_pos hek⟩
    · rw [if_neg hek]
      apply ih
      simp only [List.map_cons, List.mem_cons] at h
      exact h.resolve_left (fun hk => hek hk.symm)

theorem extract_perm {m : Locked} (hnd : (m.map (fun e => e.1)).Nodup)
    {k : Int × Int} {v : Color} (hmem : (k, v) ∈ m) :
    m.Perm ((k, v) :: dictErase m k) := by
  induction m with
  | nil => cases hmem
  | cons e es ih =>
    simp only [List.map_cons, List.nodup_cons, List.mem_map] at hnd
    rcases List.mem_cons.mp hmem with he | he
    · have hes : dictErase ((k, v) :: es) k = es := by
        unfold dictErase
        rw [List.filter_cons, if_neg (by simp)]
        rw [List.filter_eq_self]
        intro a ha
        have hak : a.1 ≠ k := fun hak => (he ▸ hnd.1) ⟨a, ha, hak⟩
        simpa using hak
      rw [← he, hes]
    · have hek : e.1 ≠ k := fun hek => hnd.1 ⟨(k, v), he, hek ▸ rfl⟩
      have herase : dictErase (e :: es) k = e :: dictErase es k := by
        unfold dictErase
        rw [List.filter_cons, if_pos (by simpa using hek)]
      rw [herase]
      exact ((ih hnd.2 he).cons e).trans (List.Perm.swap _ _ _)

theorem dictInsert_of_not_mem {m : Locked} {k : Int × Int}
    (h : k ∉ m.map (fun e => e.1)) (v : Color) : dictInsert m k v = m ++ [(k, v)] := by
  induction m with
  | nil => rfl
  | cons e es ih =>
    simp only [List.map_cons, List.mem_cons, not_or] at h
    rw [dictInsert, if_neg (fun hek => h.1 hek.symm), ih h.2]
    rfl

theorem dictLookup_dictInsert (m : Locked) (k k' : Int × Int) (v : Color) :
    dictLookup (dictInsert m k v) k' = if k' = k then some v else dictLookup m k' := by
  induction m with
  | nil =>
    by_cases hk' : k' = k
    · subst hk'
      simp [dictInsert, dictLookup]
    · simp only [show dictInsert [] k v = [(k, v)] from rfl, dictLookup]
      rw [if_neg (fun h : (k, v).1 = k' => hk' h.symm), if_neg hk']
  | cons e es ih =>
    rw [dictInsert]
    by_cases hek : e.1 = k
    · rw [if_pos hek, dictLookup]
      by_cases hk' : k' = k
      · simp [hk', dictLookup]
      · rw [if_neg (fun h : (k, v).1 = k' => hk' h.symm), if_neg hk', dictLookup,
          if_neg (fun h : e.1 = k' => hk' (hek ▸ h).symm)]
    · rw [if_neg hek, dictLookup, ih, dictLookup]
      by_cases hk'e : e.1 = k' <;> by_cases hk' : k' = k <;> simp_all

theorem mem_keys_dictErase {m : Locked} {k k' : Int × Int} :
    k' ∈ (dictErase m k).map (fun e => e.1) ↔ k' ∈ m.map (fun e => e.1) ∧ k' ≠ k := by
  simp only [List.mem_map]
  constructor
  · rintro ⟨e, he, hk⟩
    obtain ⟨hem, hek⟩ := mem_dictErase.mp he
    exact ⟨⟨e, hem, hk⟩, hk ▸ hek⟩
  · rintro ⟨⟨e, he, hk⟩, hne⟩
    exact ⟨e, mem_dictErase.mpr ⟨he, hk ▸ hne⟩, hk⟩

theorem keys_nodup_dictErase {m : Locked} (hnd : (m.map (fun e => e.1)).Nodup)
    (k : Int × Int) : ((dictErase m k).map (fun e => e.1)).Nodup :=
  ((dictErase_sublist m k).map (fun e => e.1)).nodup hnd

theorem keys_dictInsert_of_not_mem {m : Locked} {k : Int × Int}
    (h : k ∉ m.map (fun e => e.1)) (v : Color) :
    (dictInsert m k v).map (fun e => e.1) = m.map (fun e => e.1) ++ [k] := by
  rw [dictInsert_of_not_mem h v, List.map_append]
  rfl

/-! ### The collision test `valid_space` -/

theorem mem_accepted (grid : Grid) (x y : Int) :
    (x, y) ∈ accepted grid ↔ 0 ≤ x ∧ x < 10 ∧ 0 ≤ y ∧ y < 20 ∧ grid y x = BLACK := by
  unfold accepted
  simp only [List.mem_flatMap, List.mem_map, List.mem_filter, List.mem_range]
  constructor
  · rintro ⟨b, hb, a, ⟨ha, hblack⟩, heq⟩
    have hx : (a : Int) = x := by
      have := congrArg Prod.fst heq
      simpa [Int.ofNat_eq_coe] using this
    have hy : (b : Int) = y := by
      have := congrArg Prod.snd heq
      simpa [Int.ofNat_eq_coe] using this
    subst hx
    subst hy
    refine ⟨by omega, by omega, by omega, by omega, ?_⟩
    have := beq_iff_eq.mp hblack
    simpa [Int.ofNat_eq_coe] using this
  · rintro ⟨hx0, hx10, hy0, hy20, hblack⟩
    have hxx : Int.ofNat x.toNat = x := by
      simp only [Int.ofNat_eq_coe]
      omega
    have hyy : Int.ofNat y.toNat = y := by
      simp only [Int.ofNat_eq_coe]
      omega
    refine ⟨y.toNat, by omega, ⟨x.toNat, ⟨by omega, ?_⟩, ?_⟩⟩
    · rw [beq_iff_eq, hxx, hyy]
      exact hblack
    · rw [hxx, hyy]

theorem cellOK_iff (grid : Grid) (x y : Int) :
    cellOK grid (x, y) = true ↔
      0 ≤ x ∧ x < 10 ∧ y < 20 ∧ (0 ≤ y → grid y x = BLACK) := by
  unfold cellOK
  by_cases h1 : (x, y).1 < 0 ∨ 10 ≤ (x, y).1 ∨ 20 ≤ (x, y).2
  · rw [if_pos h1]
    simp only [Bool.false_eq_true, false_iff]
    rintro ⟨hx0, hx10, hy20, -⟩
    simp only at h1
    omega
  · rw [if_neg h1]
    simp only [not_or, not_lt, not_le] at h1
    obtain ⟨hx0, hx10, hy20⟩ := h1
    by_cases h2 : 0 ≤ (x, y).2 ∧ (x, y) ∉ accepted grid
    · rw [if_pos h2]
      simp only [Bool.false_eq_true, false_iff]
      rintro ⟨-, -, -, himp⟩
      exact h2.2 ((mem_accepted grid x y).mpr ⟨hx0, hx10, h2.1, hy20, himp h2.1⟩)
    · rw [if_neg h2]
      simp only [true_iff]
      refine ⟨hx0, hx10, hy20, fun hy0 => ?_⟩
      rcases not_and_or.mp h2 with h | h
      · exact absurd hy0 h
      · rw [not_not] at h
        exact ((mem_accepted grid x y).mp h).2.2.2.2

theorem valid_space_iff (p : Piece) (grid : Grid) :
    valid_space p grid = true ↔
      ∀ c ∈ get_cells p, 0 ≤ c.1 ∧ c.1 < 10 ∧ c.2 < 20 ∧ (0 ≤ c.2 → grid c.2 c.1 = BLACK) := by
  unfold valid_space
  rw [List.all_eq_true]
  constructor
  · intro h c hc
    rcases c with ⟨cx, cy⟩
    exact (cellOK_iff grid cx cy).mp (h _ hc)
  · intro h c hc
    rcases c with ⟨cx, cy⟩
    exact (cellOK_iff grid cx cy).mpr (h _ hc)

theorem length_get_cells (p : Piece) : (get_cells p).length = 4 := by
  have h4 : ∀ i : Fin 7, ∀ r : Fin 4, ((SHAPES.getD i.val []).getD r.val []).length = 4 := by
    decide
  have hr4 : p.rot % 4 < 4 := Nat.mod_lt _ (by omega)
  have := h4 p.shape_index ⟨p.rot % 4, hr4⟩
  simp only [get_cells, Piece.shape, List.length_map]
  exact this

/-- Claim C1: for every piece and board, the placement validity check
`valid_space` returns false if any occupied cell `(x, y)` of the piece has
`x < 0`, `x ≥ 10`, or `y ≥ 20` (with no upper-bound test on negative `y`),
returns false if any occupied cell with `y ≥ 0` coincides with a non-empty
cell of the dense grid, and returns true exactly when all 4 occupied cells
pass both checks. -/
theorem claim_C1 (p : Piece) (grid : Grid) :
    (get_cells p).length = 4 ∧
    (valid_space p grid = true ↔
      ∀ c ∈ get_cells p,
        0 ≤ c.1 ∧ c.1 < 10 ∧ c.2 < 20 ∧ (0 ≤ c.2 → grid c.2 c.1 = BLACK)) :=
  ⟨length_get_cells p, valid_space_iff p grid⟩

/-! ### Loss check and scoring -/

/-- Claim C6: the loss check returns true if and only if some locked cell has
`y < 1`.  In particular a board containing a locked cell at `(3, 0)` reports
lost, and a board whose locked cells all have `y ≥ 1` reports not lost. -/
theorem claim_C6 (locked : Locked) :
    check_lost locked = true ↔ ∃ e ∈ locked, e.1.2 < 1 := by
  unfold check_lost
  rw [List.any_eq_true]
  simp

/-- Claim C7: the score added after a lock is exactly 100 for 1 cleared row,
300 for 2, 500 for 3, 800 for 4 or more, and 0 for 0 rows, on top of the
prior score. -/
theorem claim_C7 (s : Nat) :
    score_after s 0 = s ∧ score_after s 1 = s + 100 ∧ score_after s 2 = s + 300 ∧
    score_after s 3 = s + 500 ∧ ∀ c, 4 ≤ c → score_after s c = s + 800 := by
  refine ⟨rfl, rfl, rfl, rfl, fun c hc => ?_⟩
  unfold score_after
  rw [if_neg (by omega), if_neg (by omega), if_neg (by omega), if_pos hc]

/-- Witness for C7 at concrete inputs: 5 rows cleared on a prior score of 7. -/
theorem claim_C7_witness : score_after 7 5 = 7 + 800 :=
  (claim_C7 7).2.2.2.2 5 (by omega)

/-! ### Locking a piece -/

theorem dictLookup_foldl_dictInsert (cells : List (Int × Int)) (v : Color) (m : Locked)
    (k : Int × Int) :
    dictLookup (cells.foldl (fun acc pos => dictInsert acc pos v) m) k =
      if k ∈ cells then some v else dictLookup m k := by
  induction cells generalizing m with
  | nil => simp
  | cons c cs ih =>
    rw [List.foldl_cons, ih]
    by_cases hk : k ∈ cs
    · rw [if_pos hk, if_pos (List.mem_cons_of_mem _ hk)]
    · rw [if_neg hk, dictLookup_dictInsert]
      by_cases hkc : k = c
      · rw [if_pos hkc, if_pos (by simp [hkc])]
      · rw [if_neg hkc, if_neg (by simp [hkc, hk])]

/-- Counterexample to claim C5 as stated: locking a freshly spawned vertical I
piece writes the key `(5, -1)` — a coordinate with `y < 0` — into the locked
store, so coordinates written by locking are not confined to
`[0, 10) × [0, 20)`. -/
theorem claim_C5_cex :
    (((5 : Int), (-1 : Int)), COLOR_I) ∈ lock_piece pieceIV [] ∧ (-1 : Int) < 0 := by
  constructor
  · decide
  · decide

/-- Claim C5 as amended: locking writes exactly the piece's occupied cells
(mapped to the piece's color) into the locked store, with no filtering of the
coordinates whatsoever — cells with `y < 0` (or any out-of-grid coordinate)
are written as well; every other key keeps its previous value. -/
theorem claim_C5 (p : Piece) (locked : Locked) (k : Int × Int) :
    dictLookup (lock_piece p locked) k =
      if k ∈ get_cells p then some p.color else dictLookup locked k :=
  dictLookup_foldl_dictInsert _ _ _ _

/-! ### Rotation with wall kicks -/

/-- Claim C2: a rotation attempt first turns the piece to rotation
`(current + 1) % 4` keeping the pivot; if that placement is valid it commits
there.  Otherwise it tries the horizontal pivot offsets in the exact order
`+1, -1, +2, -2` against the new rotation, committing at the first valid one
(even if later offsets are also valid).  If the in-place turn and all four
kicks are invalid, both the rotation index and the pivot column are restored
(the result is exactly the original piece) and failure is returned. -/
theorem claim_C2 (p : Piece) (grid : Grid) :
    try_rotate_with_kicks p grid =
      (if valid_space (rotStep p) grid then (true, rotStep p)
       else if valid_space (shiftX (rotStep p) 1) grid then (true, shiftX (rotStep p) 1)
       else if valid_space (shiftX (rotStep p) (-1)) grid then (true, shiftX (rotStep p) (-1))
       else if valid_space (shiftX (rotStep p) 2) grid then (true, shiftX (rotStep p) 2)
       else if valid_space (shiftX (rotStep p) (-2)) grid then (true, shiftX (rotStep p) (-2))
       else (false, p)) ∧
    rotStep p = ⟨p.x, p.y, p.shape_index, (p.rot + 1) % 4⟩ := by
  refine ⟨?_, rfl⟩
  unfold try_rotate_with_kicks
  by_cases h0 : valid_space (rotStep p) grid = true
  · rw [if_pos h0, if_pos h0]
  · rw [if_neg h0, if_neg h0]
    simp only [tryKicks]
    by_cases h1 : valid_space (shiftX (rotStep p) 1) grid = true
    · simp [h1]
    · simp only [if_neg h1]
      by_cases h2 : valid_space (shiftX (rotStep p) (-1)) grid = true
      · simp [h2]
      · simp only [if_neg h2]
        by_cases h3 : valid_space (shiftX (rotStep p) 2) grid = true
        · simp [h3]
        · simp only [if_neg h3]
          by_cases h4 : valid_space (shiftX (rotStep p) (-2)) grid = true
          · simp [h4]
          · simp [h1, h2, h3, h4]

/-- Claim C9: four successive rotation attempts, each of which succeeds with
the in-place turn (no kick offset used), return the piece to its original
rotation index and original pivot coordinates. -/
theorem claim_C9 (p : Piece) (grid : Grid) (hr : p.rot < 4)
    (h1 : valid_space (rotStep p) grid = true)
    (h2 : valid_space (rotStep (rotStep p)) grid = true)
    (h3 : valid_space (rotStep (rotStep (rotStep p))) grid = true)
    (h4 : valid_space (rotStep (rotStep (rotStep (rotStep p)))) grid = true) :
    (try_rotate_with_kicks ((try_rotate_with_kicks ((try_rotate_with_kicks
      ((try_rotate_with_kicks p grid).2) grid).2) grid).2) grid).2 = p := by
  have step : ∀ q : Piece, valid_space (rotStep q) grid = true →
      try_rotate_with_kicks q grid = (true, rotStep q) := by
    intro q hq
    unfold try_rotate_with_kicks
    rw [if_pos hq]
  rw [step p h1]
  show (try_rotate_with_kicks ((try_rotate_with_kicks
    ((try_rotate_with_kicks (rotStep p) grid).2) grid).2) grid).2 = p
  rw [step _ h2]
  show (try_rotate_with_kicks ((try_rotate_with_kicks (rotStep (rotStep p)) grid).2) grid).2 = p
  rw [step _ h3]
  show (try_rotate_with_kicks (rotStep (rotStep (rotStep p))) grid).2 = p
  rw [step _ h4]
  show rotStep (rotStep (rotStep (rotStep p))) = p
  unfold rotStep
  simp only []
  have hmod : ((((p.rot + 1) % 4 + 1) % 4 + 1) % 4 + 1) % 4 = p.rot := by omega
  rw [hmod]

/-- Witness for C9: an O piece in the middle of an empty board, rotated four
times with every in-place turn valid. -/
theorem claim_C9_witness :
    (try_rotate_with_kicks ((try_rotate_with_kicks ((try_rotate_with_kicks
      ((try_rotate_with_kicks pieceO44 emptyGrid).2) emptyGrid).2) emptyGrid).2) emptyGrid).2 =
      pieceO44 :=
  claim_C9 pieceO44 emptyGrid (by decide) (by decide) (by decide) (by decide) (by decide)

/-! ### Hard drop -/

theorem y_lt_of_valid {p : Piece} {grid : Grid} (h : valid_space p grid = true) :
    p.y < 20 := by
  have hmem : (p.x, p.y) ∈ get_cells p := by
    have h00 : ∀ i : Fin 7, ∀ r : Fin 4,
        ((0, 0) : Int × Int) ∈ (SHAPES.getD i.val []).getD r.val [] := by decide
    have hr4 : p.rot % 4 < 4 := Nat.mod_lt _ (by omega)
    have hm := h00 p.shape_index ⟨p.rot % 4, hr4⟩
    simp only [get_cells, Piece.shape]
    exact List.mem_map.mpr ⟨(0, 0), hm, by simp⟩
  have hc := (valid_space_iff p grid).mp h _ hmem
  simpa using hc.2.2.1

/-- Claim C10: for a piece whose current placement is valid, the hard drop
(translate down by 1 while valid, then revert the last step) terminates (the
embedding `hard_drop` is total) and leaves the piece at a valid placement from
which one more downward translation is invalid; the pivot column, rotation
index and shape are unchanged. -/
theorem claim_C10 (p : Piece) (grid : Grid) (h : valid_space p grid = true) :
    valid_space (hard_drop p grid) grid = true ∧
    valid_space (shiftY (hard_drop p grid) 1) grid = false ∧
    (hard_drop p grid).x = p.x ∧ (hard_drop p grid).rot = p.rot ∧
    (hard_drop p grid).shape_index = p.shape_index := by
  suffices H : ∀ n, ∀ q : Piece, (20 - q.y).toNat = n → valid_space q grid = true →
      valid_space (hard_drop q grid) grid = true ∧
      valid_space (shiftY (hard_drop q grid) 1) grid = false ∧
      (hard_drop q grid).x = q.x ∧ (hard_drop q grid).rot = q.rot ∧
      (hard_drop q grid).shape_index = q.shape_index by
    exact H _ p rfl h
  intro n
  induction n using Nat.strong_induction_on with
  | _ n ih =>
    intro q hn hv
    rw [hard_drop, dif_pos hv]
    by_cases hv1 : valid_space (shiftY q 1) grid = true
    · have hq20 := y_lt_of_valid hv
      have hlt : (20 - (shiftY q 1).y).toNat < n := by
        simp only [shiftY]
        omega
      have hres := ih _ hlt (shiftY q 1) rfl hv1
      simpa [shiftY] using hres
    · rw [hard_drop, dif_neg hv1]
      have hyy : shiftY (shiftY q 1) (-1) = q := by
        simp only [shiftY]
        have hq : q.y + 1 + -1 = q.y := by omega
        rw [hq]
      rw [hyy]
      have hfalse : valid_space (shiftY q 1) grid = false := by
        cases hb : valid_space (shiftY q 1) grid
        · rfl
        · exact absurd hb hv1
      exact ⟨hv, hfalse, rfl, rfl, rfl⟩

/-- Witness for C10: a horizontal I piece dropped through an empty board. -/
theorem claim_C10_witness :
    valid_space (hard_drop pieceIH emptyGrid) emptyGrid = true ∧
    valid_space (shiftY (hard_drop pieceIH emptyGrid) 1) emptyGrid = false ∧
    (hard_drop pieceIH emptyGrid).x = pieceIH.x ∧
    (hard_drop pieceIH emptyGrid).rot = pieceIH.rot ∧
    (hard_drop pieceIH emptyGrid).shape_index = pieceIH.shape_index :=
  claim_C10 pieceIH emptyGrid (by decide)

/-! ### Row clearing: the no-completed-row case -/

/-- Claim C8: when every row of the dense grid has an empty cell, `clear_rows`
returns 0 and leaves the locked store completely unchanged. -/
theorem claim_C8 (grid : Grid) (locked : Locked)
    (h : ∀ y : Int, 0 ≤ y → y < 20 → ∃ x : Int, 0 ≤ x ∧ x < 10 ∧ grid y x = BLACK) :
    clear_rows grid locked = some (0, locked) := by
  have hrows : rowsToClear grid = [] := by
    unfold rowsToClear
    rw [List.map_eq_nil_iff, List.filter_eq_nil_iff]
    intro y hy
    have hy20 : y < 20 := List.mem_range.mp hy
    obtain ⟨x, hx0, hx10, hb⟩ := h (Int.ofNat y) (by simp [Int.ofNat_eq_coe]) (by
      simp only [Int.ofNat_eq_coe]
      omega)
    simp only [List.all_eq_true, not_forall]
    refine ⟨x.toNat, List.mem_range.mpr (by omega), ?_⟩
    have hxx : Int.ofNat x.toNat = x := by
      simp only [Int.ofNat_eq_coe]
      omega
    rw [hxx]
    have hb' : grid (y : Int) x = BLACK := by simpa [Int.ofNat_eq_coe] using hb
    simp [hb']
  unfold clear_rows
  simp [hrows]

/-- Witness for C8: the empty grid (every cell empty) with one locked cell. -/
theorem claim_C8_witness :
    clear_rows emptyGrid [(((3 : Int), (3 : Int)), sampleColor)] =
      some (0, [(((3 : Int), (3 : Int)), sampleColor)]) :=
  claim_C8 emptyGrid _ (fun y _ _ => ⟨0, by omega, by omega, rfl⟩)

/-! ### Row clearing: the general case -/

theorem rowsToClear_nodup (grid : Grid) : (rowsToClear grid).Nodup := by
  unfold rowsToClear
  refine List.Nodup.map ?_ ((List.nodup_range 20).filter _)
  intro a b hab
  simp only [Int.ofNat_eq_coe] at hab
  exact_mod_cast hab

theorem innerErase_sublist (y : Int) (xs : List Nat) (m : Locked) :
    (xs.foldl (fun acc2 x => dictErase acc2 (Int.ofNat x, y)) m).Sublist m := by
  induction xs generalizing m with
  | nil => exact List.Sublist.refl m
  | cons x xs ih =>
    rw [List.foldl_cons]
    exact (ih _).trans (dictErase_sublist m _)

theorem mem_innerErase {y : Int} {xs : List Nat} {m : Locked} {e : (Int × Int) × Color} :
    e ∈ xs.foldl (fun acc2 x => dictErase acc2 (Int.ofNat x, y)) m ↔
      e ∈ m ∧ ∀ x ∈ xs, e.1 ≠ (Int.ofNat x, y) := by
  induction xs generalizing m with
  | nil => simp
  | cons x xs ih =>
    rw [List.foldl_cons, ih, mem_dictErase]
    constructor
    · rintro ⟨⟨hm, hne⟩, hall⟩
      refine ⟨hm, fun x' hx' => ?_⟩
      rcases List.mem_cons.mp hx' with h | h
      · exact h ▸ hne
      · exact hall x' h
    · rintro ⟨hm, hall⟩
      exact ⟨⟨hm, hall x (List.mem_cons_self _ _)⟩,
        fun x' hx' => hall x' (List.mem_cons_of_mem _ hx')⟩

theorem eraseRows_sublist (rows : List Int) (locked : Locked) :
    (eraseRows rows locked).Sublist locked := by
  unfold eraseRows
  induction rows generalizing locked with
  | nil => exact List.Sublist.refl locked
  | cons r rs ih =>
    rw [List.foldl_cons]
    exact (ih _).trans (innerErase_sublist r (List.range 10) locked)

theorem mem_eraseRows {rows : List Int} {locked : Locked} {e : (Int × Int) × Color} :
    e ∈ eraseRows rows locked ↔
      e ∈ locked ∧ ∀ y ∈ rows, ∀ x ∈ List.range 10, e.1 ≠ (Int.ofNat x, y) := by
  unfold eraseRows
  induction rows generalizing locked with
  | nil => simp
  | cons r rs ih =>
    rw [List.foldl_cons, ih, mem_innerErase]
    constructor
    · rintro ⟨⟨hm, hinner⟩, hall⟩
      refine ⟨hm, fun y hy x hx => ?_⟩
      rcases List.mem_cons.mp hy with h | h
      · exact h ▸ hinner x hx
      · exact hall y h x hx
    · rintro ⟨hm, hall⟩
      exact ⟨⟨hm, fun x hx => hall r (List.mem_cons_self _ _) x hx⟩,
        fun y hy x hx => hall y (List.mem_cons_of_mem _ hy) x hx⟩

theorem mem_eraseRows_of_ingrid {rows : List Int} {locked : Locked}
    (hin : ∀ e ∈ locked, 0 ≤ e.1.1 ∧ e.1.1 < 10 ∧ 0 ≤ e.1.2 ∧ e.1.2 < 20)
    {e : (Int × Int) × Color} :
    e ∈ eraseRows rows locked ↔ e ∈ locked ∧ e.1.2 ∉ rows := by
  rw [mem_eraseRows]
  constructor
  · rintro ⟨hm, hall⟩
    refine ⟨hm, fun hrow => ?_⟩
    obtain ⟨hx0, hx10, -, -⟩ := hin e hm
    refine hall e.1.2 hrow e.1.1.toNat (List.mem_range.mpr (by omega)) ?_
    have hxx : Int.ofNat e.1.1.toNat = e.1.1 := by
      simp only [Int.ofNat_eq_coe]
      omega
    rw [hxx]
  · rintro ⟨hm, hnrow⟩
    refine ⟨hm, fun y hy x hx heq => ?_⟩
    apply hnrow
    have : e.1.2 = y := by rw [heq]
    exact this ▸ hy

theorem keys_nodup_eraseRows {rows : List Int} {locked : Locked}
    (hnd : (locked.map (fun e => e.1)).Nodup) :
    ((eraseRows rows locked).map (fun e => e.1)).Nodup :=
  List.Nodup.sublist ((eraseRows_sublist rows locked).map _) hnd

theorem shiftOf_nonneg (rows : List Int) (y : Int) : 0 ≤ shiftOf rows y :=
  Int.natCast_nonneg _

theorem shift_split (rows : List Int) (y' y : Int) (hy : y ∉ rows) (hlt : y' < y) :
    (rows.filter (fun r => y' < r)).length =
      (rows.filter (fun r => y < r)).length +
        (rows.filter (fun r => y' < r ∧ r < y)).length := by
  induction rows with
  | nil => rfl
  | cons r rs ih =>
    have hyr : y ≠ r := fun h => hy (h ▸ List.mem_cons_self r rs)
    have hy' : y ∉ rs := fun h => hy (List.mem_cons_of_mem _ h)
    have ihh := ih hy'
    simp only [List.filter_cons, decide_eq_true_eq]
    split_ifs <;> (try simp only [List.length_cons]) <;> omega

theorem middle_le (rows : List Int) (hnd : rows.Nodup) (y' y : Int) :
    (rows.filter (fun r => y' < r ∧ r < y)).length ≤ (y - y' - 1).toNat := by
  have hnodup : (rows.filter (fun r => y' < r ∧ r < y)).Nodup := hnd.filter _
  have hsub : (rows.filter (fun r => y' < r ∧ r < y)).toFinset ⊆ Finset.Ioo y' y := by
    intro a ha
    rw [List.mem_toFinset] at ha
    obtain ⟨-, hcond⟩ := List.mem_filter.mp ha
    simp only [decide_eq_true_eq] at hcond
    exact Finset.mem_Ioo.mpr hcond
  calc (rows.filter (fun r => y' < r ∧ r < y)).length
      = (rows.filter (fun r => y' < r ∧ r < y)).toFinset.card :=
        (List.toFinset_card_of_nodup hnodup).symm
    _ ≤ (Finset.Ioo y' y).card := Finset.card_le_card hsub
    _ = (y - y' - 1).toNat := Int.card_Ioo _ _

theorem move_lt_move (rows : List Int) (hnd : rows.Nodup) {y' y : Int}
    (hy : y ∉ rows) (hlt : y' < y) :
    y' + shiftOf rows y' < y + shiftOf rows y := by
  have hsplit := shift_split rows y' y hy hlt
  have hmid := middle_le rows hnd y' y
  unfold shiftOf
  omega

theorem shiftFold_spec (rows : List Int) (ks : List (Int × Int)) :
    ∀ acc : Locked,
      (acc.map (fun e => e.1)).Nodup →
      ks.Nodup →
      (∀ k ∈ ks, k ∈ acc.map (fun e => e.1)) →
      ks.Pairwise (fun k k' => moveKey rows k ≠ k' ∧ moveKey rows k ≠ moveKey rows k') →
      (∀ k ∈ ks, ∀ k' ∈ acc.map (fun e => e.1), k' ∉ ks → moveKey rows k ≠ k') →
      ∃ acc', shiftFold rows ks acc = some acc' ∧
        acc'.Perm (acc.map (fun e => if e.1 ∈ ks then (moveKey rows e.1, e.2) else e)) := by
  induction ks with
  | nil =>
    intro acc hnd _ _ _ _
    refine ⟨acc, rfl, ?_⟩
    simp
  | cons k0 rest ih =>
    intro acc hnd hksnd hsub hpair hout
    obtain ⟨hpair0, hpairrest⟩ := List.pairwise_cons.mp hpair
    obtain ⟨hk0rest, hrestnd⟩ := List.nodup_cons.mp hksnd
    rw [shiftFold]
    by_cases hshift : 0 < shiftOf rows k0.2
    · rw [if_pos hshift]
      obtain ⟨v, hv⟩ := dictLookup_isSome (hsub k0 (List.mem_cons_self _ _))
      have hred : (match dictLookup acc k0 with
          | some color => shiftFold rows rest (dictInsert (dictErase acc k0) (moveKey rows k0) color)
          | none => none) =
          shiftFold rows rest (dictInsert (dictErase acc k0) (moveKey rows k0) v) := by
        rw [hv]
      rw [hred]
      have hk0mem : (k0, v) ∈ acc := dictLookup_mem hv
      have htarget : moveKey rows k0 ∉ (dictErase acc k0).map (fun e => e.1) := by
        intro hmem
        obtain ⟨hmemacc, hne⟩ := mem_keys_dictErase.mp hmem
        by_cases hks : moveKey rows k0 ∈ k0 :: rest
        · rcases List.mem_cons.mp hks with h | h
          · exact hne h
          · exact (hpair0 _ h).1 rfl
        · exact hout k0 (List.mem_cons_self _ _) _ hmemacc hks rfl
      rw [dictInsert_of_not_mem htarget]
      have hkeys1 : (dictErase acc k0 ++ [(moveKey rows k0, v)]).map (fun e => e.1) =
          (dictErase acc k0).map (fun e => e.1) ++ [moveKey rows k0] := by
        rw [List.map_append]
        rfl
      have hnd1 : ((dictErase acc k0 ++ [(moveKey rows k0, v)]).map (fun e => e.1)).Nodup := by
        rw [hkeys1]
        refine List.Nodup.append (keys_nodup_dictErase hnd k0) (List.nodup_singleton _) ?_
        intro a ha hb
        rw [List.mem_singleton] at hb
        exact htarget (hb ▸ ha)
      have hsub1 : ∀ k ∈ rest, k ∈ (dictErase acc k0 ++ [(moveKey rows k0, v)]).map
          (fun e => e.1) := by
        intro k hk
        rw [hkeys1]
        refine List.mem_append.mpr (Or.inl ?_)
        rw [mem_keys_dictErase]
        exact ⟨hsub k (List.mem_cons_of_mem _ hk), fun hkk0 => hk0rest (hkk0 ▸ hk)⟩
      have hout1 : ∀ k ∈ rest, ∀ k' ∈ (dictErase acc k0 ++ [(moveKey rows k0, v)]).map
          (fun e => e.1), k' ∉ rest → moveKey rows k ≠ k' := by
        intro k hk k' hk' hnotin
        rw [hkeys1, List.mem_append] at hk'
        rcases hk' with hk' | hk'
        · obtain ⟨hmemacc, hnek0⟩ := mem_keys_dictErase.mp hk'
          by_cases hcase : k' ∈ k0 :: rest
          · rcases List.mem_cons.mp hcase with h | h
            · exact absurd h hnek0
            · exact absurd h hnotin
          · exact hout k (List.mem_cons_of_mem _ hk) k' hmemacc hcase
        · rw [List.mem_singleton] at hk'
          subst hk'
          exact fun h => (hpair0 k hk).2 h.symm
      obtain ⟨acc', hfold, hperm⟩ :=
        ih (dictErase acc k0 ++ [(moveKey rows k0, v)]) hnd1 hrestnd hsub1 hpairrest hout1
      refine ⟨acc', hfold, ?_⟩
      have htargetrest : moveKey rows k0 ∉ rest := fun h => (hpair0 _ h).1 rfl
      -- rewrite the mapped accumulator of the induction hypothesis
      have hmap1 : (dictErase acc k0 ++ [(moveKey rows k0, v)]).map
          (fun e => if e.1 ∈ rest then (moveKey rows e.1, e.2) else e) =
          (dictErase acc k0).map (fun e => if e.1 ∈ rest then (moveKey rows e.1, e.2) else e) ++
            [(moveKey rows k0, v)] := by
        rw [List.map_append]
        simp only [List.map_cons, List.map_nil]
        rw [if_neg htargetrest]
      -- the erased store is mapped the same by the `rest` and `k0 :: rest` substitutions
      have hmap2 : (dictErase acc k0).map
          (fun e => if e.1 ∈ rest then (moveKey rows e.1, e.2) else e) =
          (dictErase acc k0).map
            (fun e => if e.1 ∈ k0 :: rest then (moveKey rows e.1, e.2) else e) := by
        apply List.map_congr_left
        intro e he
        obtain ⟨-, hek0⟩ := mem_dictErase.mp he
        by_cases her : e.1 ∈ rest
        · rw [if_pos her, if_pos (List.mem_cons_of_mem _ her)]
        · rw [if_neg her, if_neg (fun hc => (List.mem_cons.mp hc).elim hek0 her)]
      -- the original store splits off the entry at `k0`
      have hsplitacc : (acc.map (fun e => if e.1 ∈ k0 :: rest then (moveKey rows e.1, e.2)
          else e)).Perm ((moveKey rows k0, v) ::
            (dictErase acc k0).map (fun e => if e.1 ∈ k0 :: rest then (moveKey rows e.1, e.2)
              else e)) := by
        have hx := (extract_perm hnd hk0mem).map
          (fun e => if e.1 ∈ k0 :: rest then (moveKey rows e.1, e.2) else e)
        rw [List.map_cons, if_pos (List.mem_cons_self _ _)] at hx
        exact hx
      refine hperm.trans ?_
      rw [hmap1, hmap2]
      exact (List.perm_append_comm).trans hsplitacc.symm
    · rw [if_neg hshift]
      have hs0 : shiftOf rows k0.2 = 0 := by
        have := shiftOf_nonneg rows k0.2
        omega
      have hmk0 : moveKey rows k0 = k0 := by
        unfold moveKey
        rw [hs0]
        simp
      have hout1 : ∀ k ∈ rest, ∀ k' ∈ acc.map (fun e => e.1), k' ∉ rest →
          moveKey rows k ≠ k' := by
        intro k hk k' hk' hnotin
        by_cases hk0 : k' = k0
        · subst hk0
          have hne := (hpair0 k hk).2
          rw [hmk0] at hne
          exact fun h => hne h.symm
        · refine hout k (List.mem_cons_of_mem _ hk) k' hk' ?_
          intro hc
          exact (List.mem_cons.mp hc).elim hk0 hnotin
      obtain ⟨acc', hfold, hperm⟩ := ih acc hnd hrestnd
        (fun k hk => hsub k (List.mem_cons_of_mem _ hk)) hpairrest hout1
      refine ⟨acc', hfold, hperm.trans (List.Perm.of_eq ?_)⟩
      apply List.map_congr_left
      intro e he
      by_cases hek0 : e.1 = k0
      · have hm1 : e.1 ∈ k0 :: rest := by
          rw [hek0]
          exact List.mem_cons_self _ _
        rw [if_neg (fun h => hk0rest (hek0 ▸ h)), if_pos hm1]
        have hme : moveKey rows e.1 = e.1 := by
          rw [hek0, hmk0]
        rw [hme]
      · by_cases her : e.1 ∈ rest
        · rw [if_pos her, if_pos (List.mem_cons_of_mem _ her)]
        · rw [if_neg her, if_neg (fun hc => (List.mem_cons.mp hc).elim hek0 her)]

theorem sortedKeys_perm (m : Locked) : (sortedKeys m).Perm (m.map (fun e => e.1)) :=
  List.mergeSort_perm _ _

theorem sortedKeys_sorted (m : Locked) :
    (sortedKeys m).Pairwise (fun a b => b.2 ≤ a.2) := by
  have h := @List.sorted_mergeSort (Int × Int) (fun a b => decide (b.2 ≤ a.2))
    (fun a b c hab hbc => by
      simp only [decide_eq_true_eq] at hab hbc ⊢
      omega)
    (fun a b => by
      simp only [Bool.or_eq_true, decide_eq_true_eq]
      omega)
    (m.map (fun e => e.1))
  refine h.imp ?_
  intro a b hab
  simpa using hab

theorem clear_rows_eq (grid : Grid) (locked : Locked) :
    clear_rows grid locked =
      if (rowsToClear grid).isEmpty then some (0, locked)
      else
        match shiftFold (rowsToClear grid) (sortedKeys (eraseRows (rowsToClear grid) locked))
            (eraseRows (rowsToClear grid) locked) with
        | some locked2 => some ((rowsToClear grid).length, locked2)
        | none => none := rfl

/-- Snapshot semantics of `clear_rows` on a self-consistent board: it succeeds
(no `KeyError`), returns the number of completed rows, and the final store is,
up to entry order, the original store with the completed-row cells removed and
every remaining entry re-keyed from `(x, y)` to `(x, y + shift)` in one
snapshot-based relocation — no entry is lost and none is overwritten. -/
theorem clear_rows_spec (locked : Locked)
    (hnd : (locked.map (fun e => e.1)).Nodup)
    (hin : ∀ e ∈ locked, 0 ≤ e.1.1 ∧ e.1.1 < 10 ∧ 0 ≤ e.1.2 ∧ e.1.2 < 20) :
    ∃ locked2,
      clear_rows (create_grid locked) locked =
        some ((rowsToClear (create_grid locked)).length, locked2) ∧
      locked2.Perm ((locked.filter (fun e => e.1.2 ∉ rowsToClear (create_grid locked))).map
        (fun e => (moveKey (rowsToClear (create_grid locked)) e.1, e.2))) := by
  by_cases hempty : (rowsToClear (create_grid locked)).isEmpty
  · have hrnil : rowsToClear (create_grid locked) = [] := by
      simpa using hempty
    refine ⟨locked, ?_, ?_⟩
    · rw [clear_rows_eq, if_pos hempty, hrnil]
      rfl
    · rw [hrnil]
      have hfil : locked.filter (fun e => e.1.2 ∉ ([] : List Int)) = locked := by
        rw [List.filter_eq_self]
        intro a _
        simp
      rw [hfil]
      have hmap : locked.map (fun e => (moveKey ([] : List Int) e.1, e.2)) = locked := by
        have h1 : locked.map (fun e => (moveKey ([] : List Int) e.1, e.2)) = locked.map id := by
          apply List.map_congr_left
          intro e _
          show (moveKey [] e.1, e.2) = e
          unfold moveKey shiftOf
          simp
        rw [h1, List.map_id]
      rw [hmap]
  · have hrows_nodup : (rowsToClear (create_grid locked)).Nodup := rowsToClear_nodup _
    have hnd1 : ((eraseRows (rowsToClear (create_grid locked)) locked).map
        (fun e => e.1)).Nodup := keys_nodup_eraseRows hnd
    have hksperm := sortedKeys_perm (eraseRows (rowsToClear (create_grid locked)) locked)
    have hksnd : (sortedKeys (eraseRows (rowsToClear (create_grid locked)) locked)).Nodup :=
      hksperm.nodup_iff.mpr hnd1
    have hkeyfact : ∀ k ∈ (eraseRows (rowsToClear (create_grid locked)) locked).map
        (fun e => e.1),
        (0 ≤ k.1 ∧ k.1 < 10 ∧ 0 ≤ k.2 ∧ k.2 < 20) ∧
          k.2 ∉ rowsToClear (create_grid locked) := by
      intro k hk
      obtain ⟨e, he, hek⟩ := List.mem_map.mp hk
      obtain ⟨hel, hnrow⟩ := (mem_eraseRows_of_ingrid hin).mp he
      exact ⟨hek ▸ hin e hel, hek ▸ hnrow⟩
    have hpair : (sortedKeys (eraseRows (rowsToClear (create_grid locked)) locked)).Pairwise
        (fun k k' => moveKey (rowsToClear (create_grid locked)) k ≠ k' ∧
          moveKey (rowsToClear (create_grid locked)) k ≠
            moveKey (rowsToClear (create_grid locked)) k') := by
      have hcomb := List.Pairwise.and (sortedKeys_sorted _) hksnd
      refine List.Pairwise.imp_of_mem ?_ hcomb
      intro a b ha hb hr
      obtain ⟨⟨hax0, hax10, hay0, hay20⟩, hanrow⟩ := hkeyfact a (hksperm.subset ha)
      obtain ⟨⟨hbx0, hbx10, hby0, hby20⟩, hbnrow⟩ := hkeyfact b (hksperm.subset hb)
      obtain ⟨hle, hne⟩ := hr
      have hs := shiftOf_nonneg (rowsToClear (create_grid locked)) a.2
      constructor
      · intro heq
        have h1 : a.1 = b.1 := by
          have := congrArg Prod.fst heq
          simpa [moveKey] using this
        have h2 : a.2 + shiftOf (rowsToClear (create_grid locked)) a.2 = b.2 := by
          have := congrArg Prod.snd heq
          simpa [moveKey] using this
        have ha2b2 : a.2 = b.2 := by omega
        exact hne (Prod.ext h1 ha2b2)
      · intro heq
        have h1 : a.1 = b.1 := by
          have := congrArg Prod.fst heq
          simpa [moveKey] using this
        have h2 : a.2 + shiftOf (rowsToClear (create_grid locked)) a.2 =
            b.2 + shiftOf (rowsToClear (create_grid locked)) b.2 := by
          have := congrArg Prod.snd heq
          simpa [moveKey] using this
        by_cases hab : a.2 = b.2
        · exact hne (Prod.ext h1 hab)
        · have hblt : b.2 < a.2 := by omega
          have := move_lt_move (rowsToClear (create_grid locked)) hrows_nodup hanrow hblt
          omega
    have hout : ∀ k ∈ sortedKeys (eraseRows (rowsToClear (create_grid locked)) locked),
        ∀ k' ∈ (eraseRows (rowsToClear (create_grid locked)) locked).map (fun e => e.1),
        k' ∉ sortedKeys (eraseRows (rowsToClear (create_grid locked)) locked) →
        moveKey (rowsToClear (create_grid locked)) k ≠ k' := by
      intro k hk k' hk' hnot
      exact absurd (hksperm.mem_iff.mpr hk') hnot
    obtain ⟨acc', hfold, hperm⟩ := shiftFold_spec (rowsToClear (create_grid locked))
      (sortedKeys (eraseRows (rowsToClear (create_grid locked)) locked))
      (eraseRows (rowsToClear (create_grid locked)) locked)
      hnd1 hksnd (fun k hk => hksperm.subset hk) hpair hout
    refine ⟨acc', ?_, ?_⟩
    · rw [clear_rows_eq, if_neg hempty, hfold]
    · have hmapeq : (eraseRows (rowsToClear (create_grid locked)) locked).map
          (fun e => if e.1 ∈ sortedKeys (eraseRows (rowsToClear (create_grid locked)) locked)
            then (moveKey (rowsToClear (create_grid locked)) e.1, e.2) else e) =
          (eraseRows (rowsToClear (create_grid locked)) locked).map
            (fun e => (moveKey (rowsToClear (create_grid locked)) e.1, e.2)) := by
        apply List.map_congr_left
        intro e he
        rw [if_pos (hksperm.mem_iff.mpr (List.mem_map.mpr ⟨e, he, rfl⟩))]
      have hndl : locked.Nodup := List.Nodup.of_map _ hnd
      have hnd1' : (eraseRows (rowsToClear (create_grid locked)) locked).Nodup :=
        List.Nodup.of_map _ hnd1
      have hfilter : (eraseRows (rowsToClear (create_grid locked)) locked).Perm
          (locked.filter (fun e => e.1.2 ∉ rowsToClear (create_grid locked))) := by
        rw [List.perm_ext_iff_of_nodup hnd1' (hndl.filter _)]
        intro e
        rw [mem_eraseRows_of_ingrid hin, List.mem_filter]
        simp
      exact hperm.trans ((List.Perm.of_eq hmapeq).trans (hfilter.map _))

/-- Claim C3: on a board whose locked cells lie inside the grid, `clear_rows`
succeeds, returns the number of completed rows, removes exactly the cells of
completed rows, and re-inserts every remaining locked cell at its shifted
position — as a single snapshot-based relocation, so no cell is lost or
overwritten by another cell's move.  On a board where row 5 is the only
completed row this specializes to: returns 1, row 5 removed, cells with
`y < 5` moved to `y + 1` (their shift is 1), and cells with `y > 5` unchanged
(their shift is 0). -/
theorem claim_C3 (locked : Locked)
    (hnd : (locked.map (fun e => e.1)).Nodup)
    (hin : ∀ e ∈ locked, 0 ≤ e.1.1 ∧ e.1.1 < 10 ∧ 0 ≤ e.1.2 ∧ e.1.2 < 20) :
    ∃ locked2,
      clear_rows (create_grid locked) locked =
        some ((rowsToClear (create_grid locked)).length, locked2) ∧
      locked2.Perm ((locked.filter (fun e => e.1.2 ∉ rowsToClear (create_grid locked))).map
        (fun e => (moveKey (rowsToClear (create_grid locked)) e.1, e.2))) :=
  clear_rows_spec locked hnd hin

/-- Witness for C3: the board whose row 5 is full, with extra locked cells at
`(2, 3)` and `(4, 7)`. -/
theorem claim_C3_witness :
    ∃ locked2,
      clear_rows (create_grid board5) board5 =
        some ((rowsToClear (create_grid board5)).length, locked2) ∧
      locked2.Perm ((board5.filter (fun e => e.1.2 ∉ rowsToClear (create_grid board5))).map
        (fun e => (moveKey (rowsToClear (create_grid board5)) e.1, e.2))) :=
  claim_C3 board5 (by decide) (by decide)

/-- Counterexample to claim C4 as stated: on the board `board0` (top row 0
completed, plus a lone cell at `(0, 5)`), the claim's shift formula — the
count of completed rows with index less than `y = 5`, which is 1 — predicts
the cell is re-inserted at `(0, 6)`; the code instead computes
`shift = #{row ∈ rows | y < row} = 0` and keeps the cell at `(0, 5)`: the
result contains `(0, 5)` and no key `(0, 6)` at all. -/
theorem claim_C4_cex :
    rowsToClear (create_grid board0) = [(0 : Int)] ∧
    (((rowsToClear (create_grid board0)).filter (fun row => row < 5)).length = 1) ∧
    ∃ locked2,
      clear_rows (create_grid board0) board0 = some (1, locked2) ∧
      (((0 : Int), (5 : Int)), sampleColor) ∈ locked2 ∧
      ∀ v : Color, (((0 : Int), (6 : Int)), v) ∉ locked2 := by
  have hrows : rowsToClear (create_grid board0) = [(0 : Int)] := by decide
  obtain ⟨locked2, heq, hperm⟩ := clear_rows_spec board0 (by decide) (by decide)
  have hml : (board0.filter (fun e => e.1.2 ∉ rowsToClear (create_grid board0))).map
      (fun e => (moveKey (rowsToClear (create_grid board0)) e.1, e.2)) =
      [(((0 : Int), (5 : Int)), sampleColor)] := by decide
  rw [hml] at hperm
  refine ⟨hrows, by decide, locked2, ?_, ?_, ?_⟩
  · rw [heq, hrows]
    rfl
  · exact hperm.mem_iff.mpr (List.mem_singleton.mpr rfl)
  · intro v hv
    have hmem := hperm.subset hv
    rw [List.mem_singleton] at hmem
    have : ((0 : Int), (6 : Int)) = ((0 : Int), (5 : Int)) := congrArg Prod.fst hmem
    exact absurd (congrArg Prod.snd this) (by decide)

/-- Claim C4 as amended: on a board whose locked cells lie inside the grid,
each remaining locked cell at `(x, y)` is re-inserted at `(x, y + shift)`
where `shift` is the count of completed rows strictly *below* `y`, i.e., the
completed rows whose row index is *greater* than `y` (the claim as stated says
"less than"; the counterexample shows that is wrong). -/
theorem claim_C4 (locked : Locked)
    (hnd : (locked.map (fun e => e.1)).Nodup)
    (hin : ∀ e ∈ locked, 0 ≤ e.1.1 ∧ e.1.1 < 10 ∧ 0 ≤ e.1.2 ∧ e.1.2 < 20) :
    ∃ locked2,
      clear_rows (create_grid locked) locked =
        some ((rowsToClear (create_grid locked)).length, locked2) ∧
      ∀ e ∈ locked, e.1.2 ∉ rowsToClear (create_grid locked) →
        ((e.1.1, e.1.2 + (((rowsToClear (create_grid locked)).filter
            (fun row => e.1.2 < row)).length : Int)), e.2) ∈ locked2 := by
  obtain ⟨locked2, heq, hperm⟩ := clear_rows_spec locked hnd hin
  refine ⟨locked2, heq, ?_⟩
  intro e he hnrow
  apply hperm.mem_iff.mpr
  apply List.mem_map.mpr
  exact ⟨e, List.mem_filter.mpr ⟨he, by simpa using hnrow⟩, rfl⟩

/-- Witness for C4 (amended): the board whose bottom row 19 is full with one
more cell at `(3, 2)`; that cell's shift is the number of completed rows below
`y = 2`, namely 1. -/
theorem claim_C4_witness :
    ∃ locked2,
      clear_rows (create_grid board19) board19 =
        some ((rowsToClear (create_grid board19)).length, locked2) ∧
      ∀ e ∈ board19, e.1.2 ∉ rowsToClear (create_grid board19) →
        ((e.1.1, e.1.2 + (((rowsToClear (create_grid board19)).filter
            (fun row => e.1.2 < row)).length : Int)), e.2) ∈ locked2 :=
  claim_C4 board19 (by decide) (by decide)

/-! ### Instantiation witnesses for the universally quantified claims -/

/-- Witness for C1 at a concrete piece and board. -/
theorem claim_C1_witness :
    (get_cells pieceO44).length = 4 ∧
    (valid_space pieceO44 emptyGrid = true ↔
      ∀ c ∈ get_cells pieceO44,
        0 ≤ c.1 ∧ c.1 < 10 ∧ c.2 < 20 ∧ (0 ≤ c.2 → emptyGrid c.2 c.1 = BLACK)) :=
  claim_C1 pieceO44 emptyGrid

/-- Witness for C2 at a concrete piece and board. -/
theorem claim_C2_witness :
    try_rotate_with_kicks pieceIV emptyGrid =
      (if valid_space (rotStep pieceIV) emptyGrid then (true, rotStep pieceIV)
       else if valid_space (shiftX (rotStep pieceIV) 1) emptyGrid then
         (true, shiftX (rotStep pieceIV) 1)
       else if valid_space (shiftX (rotStep pieceIV) (-1)) emptyGrid then
         (true, shiftX (rotStep pieceIV) (-1))
       else if valid_space (shiftX (rotStep pieceIV) 2) emptyGrid then
         (true, shiftX (rotStep pieceIV) 2)
       else if valid_space (shiftX (rotStep pieceIV) (-2)) emptyGrid then
         (true, shiftX (rotStep pieceIV) (-2))
       else (false, pieceIV)) ∧
    rotStep pieceIV = ⟨pieceIV.x, pieceIV.y, pieceIV.shape_index, (pieceIV.rot + 1) % 4⟩ :=
  claim_C2 pieceIV emptyGrid

/-- Witness for C5 (amended) at a concrete piece, store and key. -/
theorem claim_C5_witness :
    dictLookup (lock_piece pieceIV []) ((5 : Int), (-1 : Int)) =
      if ((5 : Int), (-1 : Int)) ∈ get_cells pieceIV then some pieceIV.color
      else dictLookup [] ((5 : Int), (-1 : Int)) :=
  claim_C5 pieceIV [] ((5 : Int), (-1 : Int))

/-- Witness for C6 at a concrete store. -/
theorem claim_C6_witness :
    check_lost board0 = true ↔ ∃ e ∈ board0, e.1.2 < 1 :=
  claim_C6 board0

end Tetris
